import Mathlib

/-!
Verification development for the storm_monitor repository.

This file gives a shallow embedding, in Lean 4, of the pure computational
core of the repository (src/app_functions.py and
src/get_Forecast_Data_V3.py) and proves or refutes the specification
claims about it.

Conventions of the embedding:
* Python floats that in this code base only ever hold exact decimal data
  (wind speeds in knots, pressures in millibars, radii in nautical miles,
  coordinates in tenths of degrees) are modelled as rationals.
* Python dicts whose insertion order matters are modelled as ordered
  association lists.
* pandas GeoDataFrames are modelled by the lists of the rows the code
  actually reads, and shapely geometry is modelled symbolically, with a
  denotation into subsets of the Euclidean plane (the complex numbers).
* fallible Python code is modelled with `Option` / `Except`.
-/

namespace StormMonitor

/-! ## Intensity classifier (src/app_functions.py lines 417-456)

Wind-speed categories.  The source stores, for each category, a lower
bound, an upper bound (`float('inf')` for Category 5, modelled as `none`),
a label and an ordinal.  `wind_speed_to_category` returns the first
category with `lower_bound <= wind_speed < upper_bound`, and
`('Unknown', -999)` when no row matches. -/

structure WSCat where
  lo : ℚ
  hi : Option ℚ
  name : String
  num : Int
deriving DecidableEq, Repr

def ws_categories : List WSCat :=
  [ ⟨0, some 34, "Tropical Depression", -1⟩,
    ⟨34, some 63, "Tropical Storm", 0⟩,
    ⟨64, some 82, "Category 1", 1⟩,
    ⟨83, some 95, "Category 2", 2⟩,
    ⟨96, some 112, "Category 3", 3⟩,
    ⟨113, some 136, "Category 4", 4⟩,
    ⟨137, none, "Category 5", 5⟩ ]

def wsMatches (w : ℚ) (c : WSCat) : Bool :=
  decide (c.lo ≤ w) &&
    (match c.hi with
     | none => true
     | some h => decide (w < h))

def wind_speed_to_category (w : ℚ) : String × Int :=
  match ws_categories.find? (wsMatches w) with
  | some c => (c.name, c.num)
  | none => ("Unknown", -999)

/-- Central-pressure categories.  The source stores an upper bound
(`np.inf` for the first row, modelled as `none`), a lower bound, a label
and an ordinal; `pressure_to_category` returns the first category with
`upper_bound > central_pressure >= lower_bound`, else `('Unknown', -999)`. -/
structure CPCat where
  hi : Option ℚ
  lo : ℚ
  name : String
  num : Int
deriving DecidableEq, Repr

def cp_categories : List CPCat :=
  [ ⟨none, 990, "Tropical Storm", 0⟩,
    ⟨some 990, 980, "Category 1", 1⟩,
    ⟨some 980, 965, "Category 2", 2⟩,
    ⟨some 965, 945, "Category 3", 3⟩,
    ⟨some 945, 920, "Category 4", 4⟩,
    ⟨some 920, 0, "Category 5", 5⟩ ]

def cpMatches (p : ℚ) (c : CPCat) : Bool :=
  (match c.hi with
   | none => true
   | some h => decide (p < h)) && decide (c.lo ≤ p)

def pressure_to_category (p : ℚ) : String × Int :=
  match cp_categories.find? (cpMatches p) with
  | some c => (c.name, c.num)
  | none => ("Unknown", -999)

/-! ## Radius table (src/app_functions.py lines 17-34)

The radius lookup dictionary maps a basin code to a map from forecast
hour to a 2/3-probability-circle radius in nautical miles.  The WP, IO,
SH and SL rows reuse the AL row. -/

def alRow : List (Int × Nat) :=
  [(12, 26), (24, 41), (36, 55), (48, 70), (60, 88), (72, 102), (96, 151), (120, 220)]

def radius_lookup : List (String × List (Int × Nat)) :=
  [ ("AL", alRow),
    ("EP", [(12, 26), (24, 39), (36, 53), (48, 65), (60, 76), (72, 92), (96, 119), (120, 152)]),
    ("CP", [(12, 34), (24, 49), (36, 66), (48, 81), (60, 95), (72, 120), (96, 137), (120, 156)]),
    ("WP", alRow),
    ("IO", alRow),
    ("SH", alRow),
    ("SL", alRow) ]

/-- Embedding of `get_radius`: membership test in the outer dict, then in
the inner dict, yielding the stored radius, and `None` on either miss. -/
def get_radius (basin : String) (forecast_hour : Int) : Option Nat :=
  match radius_lookup.lookup basin with
  | some row => row.lookup forecast_hour
  | none => none

/-- Fixed horizon set of the radius table, as named by the specification;
it equals the key set of every row of `radius_lookup` (checked inside the
claim-C8 theorem). -/
def horizonSet : List Int := [12, 24, 36, 48, 60, 72, 96, 120]

/-! ## Python string primitives

These model the string operations the source uses: `str.split()` (split
on runs of whitespace, dropping empty tokens), `str.strip()`,
`' '.join(...)`, `str.isdigit` membership, `str.upper`, `str.title`,
`str.rstrip(',')`.  Characters are handled at ASCII fidelity, which
covers every string this code base manipulates. -/

/-- Python whitespace for `split` and `strip` (ASCII range). -/
def pyIsSpace (c : Char) : Bool :=
  c == ' ' || c == '\t' || c == '\n' || c == '\r' || c == '\x0b' || c == '\x0c'

/-- Accumulator worker for `str.split()`.  The accumulator holds the
current word reversed. -/
def splitAux : List Char → List Char → List (List Char)
  | acc, [] => if acc.isEmpty then [] else [acc.reverse]
  | acc, c :: cs =>
    if pyIsSpace c then
      if acc.isEmpty then splitAux [] cs else acc.reverse :: splitAux [] cs
    else splitAux (c :: acc) cs

/-- Embedding of Python `str.split()` with no separator argument: splits
on runs of whitespace and never yields empty tokens. -/
def pySplit (l : List Char) : List (List Char) := splitAux [] l

/-- Embedding of `' '.join(words)`. -/
def joinSpace : List (List Char) → List Char
  | [] => []
  | [w] => w
  | w :: ws => w ++ ' ' :: joinSpace ws

/-- Embedding of Python `str.strip()`: drop whitespace from both ends. -/
def pyStrip (l : List Char) : List Char :=
  ((l.dropWhile pyIsSpace).reverse.dropWhile pyIsSpace).reverse

/-- String-level version of `pyStrip`. -/
def pyStripStr (s : String) : String := String.mk (pyStrip s.toList)

/-- Test from `process_string`: `any(char.isdigit() for char in word)`. -/
def hasDigit (w : List Char) : Bool := w.any Char.isDigit

/-! ## Label cleaning (src/app_functions.py lines 668-700)

The inner helper `process_string` of `clean_strings` splits a label into
words, always keeps the first word, keeps subsequent words until one
contains a digit, and rejoins with single spaces; `clean_strings` maps it
over a column, modelled here as a list of labels. -/

def process_words : List (List Char) → List (List Char)
  | [] => []
  | w :: rest => w :: rest.takeWhile (fun v => !hasDigit v)

def process_string (s : String) : String :=
  String.mk (pyStrip (joinSpace (process_words (pySplit s.toList))))

def clean_strings (labels : List String) : List String :=
  labels.map process_string

/-! ## Coordinate parser (src/app_functions.py lines 392-415)

The source's `parse_lat_lon` takes an arbitrary Python value.  Values
that are not strings are handled uniformly by the `isinstance` guard, so
the embedding collapses them into one constructor. -/

inductive PyValue where
  | str (s : String)
  | nonStr
deriving DecidableEq, Repr

def digitsToNat (l : List Char) : Nat := l.foldl (fun a c => 10 * a + (c.toNat - 48)) 0

def isDigits (l : List Char) : Bool := !l.isEmpty && l.all Char.isDigit

/-- Magnitude part of the builtin `float(...)` on plain decimal literals:
digits with an optional single decimal point (this is the only float
syntax ATCF coordinate fields can carry; exponents, underscores, inf and
nan are not modelled).  Returns `none` exactly where `float` raises
`ValueError`. -/
def pyFloatMag (l : List Char) : Option ℚ :=
  let ip := l.takeWhile (fun c => c != '.')
  match l.dropWhile (fun c => c != '.') with
  | [] => if isDigits l then some ((digitsToNat l : ℚ)) else none
  | _ :: frac =>
    if ip.all Char.isDigit && frac.all Char.isDigit && (!ip.isEmpty || !frac.isEmpty) then
      some ((digitsToNat ip : ℚ) + (digitsToNat frac : ℚ) / 10 ^ frac.length)
    else none

/-- Sign handling of `float`: an optional leading sign before the
magnitude. -/
def pyFloatSigned : List Char → Option ℚ
  | [] => pyFloatMag []
  | c :: rest =>
    if c = '+' then pyFloatMag rest
    else if c = '-' then (pyFloatMag rest).map (fun x => -x)
    else pyFloatMag (c :: rest)

/-- Model of Python `float(s)` for decimal literals: optional surrounding
whitespace, optional sign, then a decimal magnitude. -/
def pyFloat? (s : String) : Option ℚ := pyFloatSigned (pyStrip s.toList)

def nsewChars : List Char := ['N', 'S', 'E', 'W']

/-- Embedding of `parse_lat_lon`: strip, inspect the final character for
a direction suffix, parse the number as a float (catching `ValueError` as
`none`), divide by 10 and negate for S/W; a non-empty string without a
direction suffix is parsed and divided by 10 directly; everything else
(non-strings, empty strings, unparseable numbers) yields `none`. -/
def parseCore (v : List Char) : Option ℚ :=
  match v.getLast? with
  | some d =>
    if d ∈ nsewChars then
      match pyFloat? (String.mk v.dropLast) with
      | some x =>
        let degrees := x / 10
        if d = 'S' ∨ d = 'W' then some (-degrees) else some degrees
      | none => none
    else
      (pyFloat? (String.mk v)).map (fun x => x / 10)
  | none => none

def parse_lat_lon : PyValue → Option ℚ
  | PyValue.nonStr => none
  | PyValue.str s => parseCore (pyStrip s.toList)

/-! ## Storm name inference (src/get_Forecast_Data_V3.py lines 31-130)

The embedding models the storm-name component of `extract_storm_info`:
the file is given as its list of text lines (the file handle itself is an
I/O collaborator), and the date/year components, which the claims do not
concern, are not carried.  The Python dict `storm_name_dict` preserves
insertion order, so it is modelled as an ordered association list from
candidate name to occurrence count. -/

def basin_codes : List String := ["AL", "EP", "CP", "WP", "IO", "SH"]

def number_words_set : List String :=
  ["ONE", "TWO", "THREE", "FOUR", "FIVE", "SIX", "SEVEN", "EIGHT", "NINE", "TEN",
   "ELEVEN", "TWELVE", "THIRTEEN", "FOURTEEN", "FIFTEEN", "SIXTEEN", "SEVENTEEN",
   "EIGHTEEN", "NINETEEN", "TWENTY"]

def pyUpper (s : String) : String := String.mk (s.toList.map Char.toUpper)

/-- Embedding of `str.rstrip(',')`: remove all trailing commas. -/
def rstripComma (l : List Char) : List Char := (l.reverse.dropWhile (fun c => c == ',')).reverse

/-- The transformation `columns[27].strip().rstrip(',').upper()`. -/
def cleanToken (t : String) : String := pyUpper (String.mk (rstripComma (pyStrip t.toList)))

/-- Embedding of `line.strip().split()`; the leading `strip` cannot
change the output of a separator-less `split`. -/
def pyWords (s : String) : List String := (pySplit s.toList).map String.mk

/-- One `storm_name_dict[k] = storm_name_dict.get(k, 0) + 1` update on the
insertion-ordered dict. -/
def bumpCount (d : List (String × Nat)) (k : String) : List (String × Nat) :=
  if d.any (fun p => p.1 == k) then
    d.map (fun p => if p.1 == k then (p.1, p.2 + 1) else p)
  else d ++ [(k, 1)]

/-- Per-line candidate collection: lines with at least 28
whitespace-separated columns contribute their 28th column, cleaned; empty
cleaned tokens are not counted. -/
def lineStep (d : List (String × Nat)) (line : String) : List (String × Nat) :=
  match (pyWords line).get? 27 with
  | some t =>
    let potential := cleanToken t
    if potential ≠ "" then bumpCount d potential else d
  | none => d

def candidateCounts (lines : List String) : List (String × Nat) := lines.foldl lineStep []

/-- Steps 1-3 of the source: drop basin codes, digit-bearing keys, and
number words from the candidate dict. -/
def filteredCounts (d : List (String × Nat)) : List (String × Nat) :=
  ((d.filter (fun p => !(basin_codes.contains p.1))).filter
      (fun p => !(p.1.toList.any Char.isDigit))).filter
    (fun p => !(number_words_set.contains p.1))

def isAlphaStr (l : List Char) : Bool := !l.isEmpty && l.all Char.isAlpha

/-- Embedding of Python `str.endswith`. -/
def pyEndsWith (s t : String) : Bool := s.toList.reverse.take t.toList.length == t.toList.reverse

/-- The candidate `name[:-len(basin_code)].strip()` built when stripping a
trailing basin code from a name. -/
def stripBasinCandidate (name : String) (bc : String) : String :=
  pyStripStr (String.mk (name.toList.take (name.toList.length - bc.toList.length)))

/-- One iteration of the basin-code-stripping loop: the first basin code
that is a suffix of the name and whose removal leaves a purely alphabetic
string wins; otherwise the name is kept unchanged. -/
def cleanedName (name : String) : String :=
  match basin_codes.find? (fun bc =>
      pyEndsWith name bc && isAlphaStr (stripBasinCandidate name bc).toList) with
  | some bc => stripBasinCandidate name bc
  | none => name

/-- Insertion into the model of the Python set `cleaned_names`; only the
cardinality of the set is consumed, so an order-preserving dedup list is
a faithful model. -/
def insertNew (l : List String) (x : String) : List String := if x ∈ l then l else l ++ [x]

/-- Selection logic of `extract_storm_info` run on the filtered candidate
key list: no candidates give DISTURBANCE, the sole candidate INVEST gives
INVEST, otherwise INVEST is discarded, a unique candidate is taken, and
among several candidates the common basin-code-stripped form is taken
when it is unique, else the last candidate.  (The `""` default of
`getLastD` is unreachable: the branch is only taken with at least one
name remaining.) -/
def chooseStormName (storm_names : List String) : String :=
  if storm_names = [] then "DISTURBANCE"
  else if storm_names = ["INVEST"] then "INVEST"
  else
    let names := storm_names.erase "INVEST"
    if names.length = 1 then names.headD ""
    else
      let cleaned := names.foldl (fun acc n => insertNew acc (cleanedName n)) []
      if cleaned.length = 1 then cleaned.headD ""
      else names.getLastD ""

/-- Embedding of Python `str.title()` (ASCII fidelity): a letter directly
after a letter is lowercased, any other letter is uppercased. -/
def pyTitleAux : Bool → List Char → List Char
  | _, [] => []
  | prevAlpha, c :: cs =>
    (if c.isAlpha then (if prevAlpha then c.toLower else c.toUpper) else c) ::
      pyTitleAux c.isAlpha cs

def pyTitle (s : String) : String := String.mk (pyTitleAux false s.toList)

/-- Storm-name component of `extract_storm_info`. -/
def extract_storm_info_name (lines : List String) : String :=
  pyTitle (chooseStormName ((filteredCounts (candidateCounts lines)).map Prod.fst))

/-! ## Cone builder (src/app_functions.py lines 36-117)

A `TrackRow` carries the fields of an a-deck record the cone pipeline
reads.  Coordinates are the point's metric-frame (UTM) coordinates in
meters: the `to_crs(estimate_utm_crs())` reprojection is modelled as the
identity on an already-metric track, and the final reprojection back to
EPSG:4326 is likewise kept abstract — the claims under verification
concern emptiness and metric-frame area, both invariant under the
reprojection. -/

structure TrackRow where
  modelName : String
  basin : String
  forecastHour : Int
  x : ℚ
  y : ℚ
deriving DecidableEq, Repr

def models_to_try : List String :=
  ["OFCL", "OFCI", "AEMN", "AVNO", "AVNI", "AVNX", "EGRR", "EGRI", "EGR2",
   "UKM", "UKX", "UKMI", "UKXI", "UKM2", "UKX2", "HWRF", "HWFI", "HWF2"]

/-- Result of `filter_adeck_gdf_for_official_model`.  When no preferred
model matches, the source replaces the frame by a fresh `GeoDataFrame()`
that has no columns at all — distinguished here from a `found` row list
because the caller's `sort_values(by='ForecastHour')` behaves differently
on it. -/
inductive OfclFilterResult where
  | found (rows : List TrackRow)
  | freshEmpty
deriving DecidableEq, Repr

def filter_adeck_gdf_for_official_model (adeck : List TrackRow) : OfclFilterResult :=
  match models_to_try.find? (fun m => adeck.any (fun r => r.modelName == m)) with
  | some m => OfclFilterResult.found (adeck.filter (fun r => r.modelName == m))
  | none => OfclFilterResult.freshEmpty

/-- A buffer disk in the metric frame: center coordinates and radius in
meters.  The radius `radius_nm * 1852` is always a whole number of
meters, recorded exactly. -/
structure Disk where
  cx : ℚ
  cy : ℚ
  r : Nat
deriving DecidableEq, Repr

/-- Return value of `create_uncertainty_cone`: either the fresh empty
`GeoDataFrame()` returned when no buffers exist, or a one-row frame whose
geometry is the unary union of the bridging convex-hull segments. -/
inductive Cone where
  | emptyGDF
  | gdf (segs : List (Disk × Disk))
deriving DecidableEq, Repr

inductive PyError where
  | keyError (key : String)
deriving DecidableEq, Repr

instance {ε α : Type} [DecidableEq ε] [DecidableEq α] : DecidableEq (Except ε α) := fun a b =>
  match a, b with
  | Except.error e, Except.error f =>
    if h : e = f then Decidable.isTrue (by rw [h]) else
      Decidable.isFalse (by intro hc; injection hc; exact h (by assumption))
  | Except.error _, Except.ok _ => Decidable.isFalse (by intro hc; injection hc)
  | Except.ok _, Except.error _ => Decidable.isFalse (by intro hc; injection hc)
  | Except.ok x, Except.ok y =>
    if h : x = y then Decidable.isTrue (by rw [h]) else
      Decidable.isFalse (by intro hc; injection hc; exact h (by assumption))

/-- Insertion step for the sort below. -/
def insertRow (r : TrackRow) : List TrackRow → List TrackRow
  | [] => [r]
  | a :: t => if r.forecastHour ≤ a.forecastHour then r :: a :: t else a :: insertRow r t

/-- Model of `sort_values(by='ForecastHour')` on a frame that has the
column: a sort by ascending forecast hour (the source's quicksort and
this insertion sort order the buffers identically up to ties, and every
property proved below is invariant under permutation of tied rows). -/
def sortRows (rows : List TrackRow) : List TrackRow := rows.foldr insertRow []

/-- Buffer construction for one row: radius lookup by basin and forecast
hour, nautical miles converted to meters (1 NM = 1852 m), `None` radius
meaning no buffer. -/
def bufferOf (r : TrackRow) : Option Disk :=
  (get_radius r.basin r.forecastHour).map (fun nm => ⟨r.x, r.y, nm * 1852⟩)

/-- The `buffered_geometries` list: buffers of the sorted rows, skipping
rows without a radius entry. -/
def buffersOf (rows : List TrackRow) : List Disk := (sortRows rows).filterMap bufferOf

/-- Embedding of `create_uncertainty_cone`.  On the no-preferred-model
path the source calls `sort_values(by='ForecastHour')` on a fresh
column-less `GeoDataFrame()`, and pandas raises `KeyError` for a missing
sort key regardless of emptiness; the embedding records that error.  On
the found path the rows are sorted, buffered, and bridged pairwise
(`zip(buffered, buffered[1:])`), and the union of the bridges is
returned; with no buffers a fresh empty frame is returned early. -/
def create_uncertainty_cone (input_gdf : List TrackRow) : Except PyError Cone :=
  match filter_adeck_gdf_for_official_model input_gdf with
  | OfclFilterResult.freshEmpty => Except.error (PyError.keyError "ForecastHour")
  | OfclFilterResult.found rows =>
    let buffered := buffersOf rows
    if buffered.isEmpty then Except.ok Cone.emptyGDF
    else Except.ok (Cone.gdf (buffered.zip buffered.tail))

/-- Number of track rows whose (basin, forecast hour) has a radius-table
entry — the number of usable buffers. -/
def usableCount (rows : List TrackRow) : Nat :=
  rows.countP (fun r => (get_radius r.basin r.forecastHour).isSome)

/-! ### Geometric denotation

Shapely geometry is denoted by subsets of the Euclidean plane, taken as
`ℂ`; `buffer` produces the closed disk, `convex_hull` is the real convex
hull, `union`/`unary_union` are set unions.  The empty
`GeometryCollection` produced by `unary_union([])` denotes `∅`. -/

noncomputable def diskCenter (d : Disk) : ℂ := ⟨(d.cx : ℝ), (d.cy : ℝ)⟩

noncomputable def diskSet (d : Disk) : Set ℂ := Metric.closedBall (diskCenter d) (d.r : ℝ)

/-- Denotation of `first.convex_hull.union(second.convex_hull).convex_hull`. -/
noncomputable def bridgeSet (p : Disk × Disk) : Set ℂ :=
  convexHull ℝ (convexHull ℝ (diskSet p.1) ∪ convexHull ℝ (diskSet p.2))

/-- Denotation of `unary_union(convex_hull_segments)`. -/
noncomputable def segsSet (segs : List (Disk × Disk)) : Set ℂ := ⋃ p ∈ segs, bridgeSet p

/-- Geometry carried by a cone result; the fresh empty `GeoDataFrame()`
carries no geometry at all, denoted `∅`. -/
noncomputable def coneSet : Cone → Set ℂ
  | Cone.emptyGDF => ∅
  | Cone.gdf segs => segsSet segs

/-! ## Concrete inputs used by scenario claims and counterexamples -/

/-- Scenario track of spec §8: two authoritative AL points at horizons 12
and 24 (metric-frame centers 100 km apart). -/
def alTrack12_24 : List TrackRow :=
  [⟨"OFCL", "AL", 12, 0, 0⟩, ⟨"OFCL", "AL", 24, 100000, 0⟩]

/-- A track none of whose rows carries a preferred forecast model. -/
def unofficialTrack : List TrackRow := [⟨"XXXX", "AL", 12, 0, 0⟩]

/-- A track with exactly one authoritative point (with a radius entry). -/
def singlePointTrack : List TrackRow := [⟨"OFCL", "AL", 12, 0, 0⟩]

/-- An advisory line with 28 whitespace-separated columns whose 28th
column is the given token. -/
def advLine (tok : String) : String :=
  String.intercalate " " (List.replicate 27 "x" ++ [tok])

/-! ## Supporting lemmas: association-list lookup -/

lemma lookup_none_of_not_mem {α β : Type} [BEq α] [LawfulBEq α] {l : List (α × β)} {k : α}
    (h : k ∉ l.map Prod.fst) : l.lookup k = none := by
  induction l with
  | nil => rfl
  | cons a t ih =>
    simp only [List.map_cons, List.mem_cons, not_or] at h
    obtain ⟨k1, v1⟩ := a
    have hb : (k == k1) = false := beq_eq_false_iff_ne.mpr h.1
    simpa [List.lookup, hb] using ih h.2

lemma lookup_mem {α β : Type} [BEq α] {l : List (α × β)} {k : α} {v : β}
    (h : l.lookup k = some v) : v ∈ l.map Prod.snd := by
  induction l with
  | nil => simp [List.lookup] at h
  | cons a t ih =>
    obtain ⟨k1, v1⟩ := a
    by_cases hb : (k == k1) = true
    · simp [List.lookup, hb] at h
      simp [h]
    · simp only [Bool.not_eq_true] at hb
      simp only [List.lookup, hb] at h
      simp [ih h]

/-! ## Supporting lemmas: the whitespace splitter -/

lemma splitAux_nil (acc : List Char) :
    splitAux acc [] = if acc.isEmpty then [] else [acc.reverse] := rfl

lemma splitAux_cons (acc : List Char) (c : Char) (cs : List Char) :
    splitAux acc (c :: cs) =
      if pyIsSpace c then
        if acc.isEmpty then splitAux [] cs else acc.reverse :: splitAux [] cs
      else splitAux (c :: acc) cs := rfl

/-- A word produced by the splitter: non-empty and whitespace-free. -/
def goodWord (w : List Char) : Prop := w ≠ [] ∧ ∀ c ∈ w, pyIsSpace c = false

lemma splitAux_good (s : List Char) : ∀ acc, (∀ c ∈ acc, pyIsSpace c = false) →
    ∀ w ∈ splitAux acc s, goodWord w := by
  induction s with
  | nil =>
    intro acc hacc w hw
    rw [splitAux_nil] at hw
    by_cases he : acc.isEmpty
    · rw [if_pos he] at hw
      simp at hw
    · rw [if_neg he] at hw
      rw [List.mem_singleton] at hw
      subst hw
      refine ⟨by simpa using he, ?_⟩
      intro c hc
      exact hacc c (List.mem_reverse.mp hc)
  | cons c cs ih =>
    intro acc hacc w hw
    rw [splitAux_cons] at hw
    by_cases hsp : pyIsSpace c
    · rw [if_pos hsp] at hw
      by_cases he : acc.isEmpty
      · rw [if_pos he] at hw
        exact ih [] (by simp) w hw
      · rw [if_neg he] at hw
        rcases List.mem_cons.mp hw with heq | hw
        · subst heq
          refine ⟨by simpa using he, ?_⟩
          intro d hd
          exact hacc d (List.mem_reverse.mp hd)
        · exact ih [] (by simp) w hw
    · rw [if_neg hsp] at hw
      refine ih (c :: acc) ?_ w hw
      intro d hd
      rcases List.mem_cons.mp hd with rfl | hd
      · simpa using hsp
      · exact hacc d hd

lemma pySplit_good (s : List Char) : ∀ w ∈ pySplit s, goodWord w :=
  splitAux_good s [] (by simp)

lemma splitAux_append_word (w : List Char) : ∀ acc s, (∀ c ∈ w, pyIsSpace c = false) →
    splitAux acc (w ++ s) = splitAux (w.reverse ++ acc) s := by
  induction w with
  | nil => intro acc s _; simp
  | cons c cs ih =>
    intro acc s hw
    have hc : ¬ (pyIsSpace c = true) := by
      rw [hw c (by simp)]; simp
    rw [List.cons_append, splitAux_cons, if_neg hc,
      ih (c :: acc) s (fun d hd => hw d (by simp [hd]))]
    simp

/-- Splitting the space-joined form of a list of good words recovers the
words. -/
lemma resplit (ws : List (List Char)) (h : ∀ w ∈ ws, goodWord w) :
    pySplit (joinSpace ws) = ws := by
  induction ws with
  | nil => rfl
  | cons w t ih =>
    obtain ⟨hne, hchars⟩ := h w (by simp)
    have hrevne : ¬ (w.reverse.isEmpty = true) := by
      simpa using hne
    cases t with
    | nil =>
      show splitAux [] (joinSpace [w]) = [w]
      have hw : joinSpace [w] = w ++ [] := by simp [joinSpace]
      rw [hw, splitAux_append_word w [] [] hchars, List.append_nil, splitAux_nil,
        if_neg hrevne, List.reverse_reverse]
    | cons w2 t2 =>
      show splitAux [] (joinSpace (w :: w2 :: t2)) = w :: w2 :: t2
      have hj : joinSpace (w :: w2 :: t2) = w ++ ' ' :: joinSpace (w2 :: t2) := rfl
      rw [hj, splitAux_append_word w [] _ hchars, List.append_nil, splitAux_cons,
        if_pos (show pyIsSpace ' ' = true from rfl), if_neg hrevne, List.reverse_reverse]
      congr 1
      exact ih (fun v hv => h v (by simp [hv]))

lemma splitAux_spaces (sp : List Char) : ∀ acc, (∀ c ∈ sp, pyIsSpace c = true) →
    splitAux acc sp = if acc.isEmpty then [] else [acc.reverse] := by
  induction sp with
  | nil => intro acc _; rfl
  | cons c cs ih =>
    intro acc hsp
    rw [splitAux_cons, if_pos (hsp c (by simp))]
    by_cases he : acc.isEmpty
    · rw [if_pos he, if_pos he, ih [] (fun d hd => hsp d (by simp [hd]))]
      rfl
    · rw [if_neg he, if_neg he, ih [] (fun d hd => hsp d (by simp [hd]))]
      rfl

lemma splitAux_append_spaces (s : List Char) : ∀ acc sp, (∀ c ∈ sp, pyIsSpace c = true) →
    splitAux acc (s ++ sp) = splitAux acc s := by
  induction s with
  | nil =>
    intro acc sp hsp
    rw [List.nil_append, splitAux_spaces sp acc hsp, splitAux_nil]
  | cons c cs ih =>
    intro acc sp hsp
    rw [List.cons_append, splitAux_cons, splitAux_cons]
    by_cases hc : pyIsSpace c = true
    · rw [if_pos hc, if_pos hc]
      by_cases he : acc.isEmpty
      · rw [if_pos he, if_pos he, ih [] sp hsp]
      · rw [if_neg he, if_neg he, ih [] sp hsp]
    · rw [if_neg hc, if_neg hc, ih (c :: acc) sp hsp]

lemma split_dropWhile (l : List Char) :
    pySplit (l.dropWhile pyIsSpace) = pySplit l := by
  induction l with
  | nil => rfl
  | cons c cs ih =>
    by_cases hc : pyIsSpace c = true
    · rw [List.dropWhile_cons_of_pos hc]
      show pySplit (cs.dropWhile pyIsSpace) = splitAux [] (c :: cs)
      rw [splitAux_cons, if_pos hc, if_pos (show ([] : List Char).isEmpty = true from rfl)]
      exact ih
    · rw [List.dropWhile_cons_of_neg hc]

lemma strip_decomp (l : List Char) :
    ∃ sp, l.dropWhile pyIsSpace = pyStrip l ++ sp ∧ ∀ c ∈ sp, pyIsSpace c = true := by
  refine ⟨((l.dropWhile pyIsSpace).reverse.takeWhile pyIsSpace).reverse, ?_, ?_⟩
  · have key := List.takeWhile_append_dropWhile (p := pyIsSpace)
      (l := (l.dropWhile pyIsSpace).reverse)
    have h2 : l.dropWhile pyIsSpace = ((l.dropWhile pyIsSpace).reverse).reverse :=
      (List.reverse_reverse _).symm
    conv_lhs => rw [h2, ← key]
    rw [List.reverse_append]
    rfl
  · intro c hc
    rw [List.mem_reverse] at hc
    exact List.mem_takeWhile_imp hc

/-- Stripping outer whitespace does not change how a string splits. -/
lemma split_strip (l : List Char) : pySplit (pyStrip l) = pySplit l := by
  obtain ⟨sp, hdec, hsp⟩ := strip_decomp l
  have h1 : pySplit (l.dropWhile pyIsSpace) = pySplit (pyStrip l) := by
    rw [hdec]
    exact splitAux_append_spaces (pyStrip l) [] sp hsp
  rw [← h1, split_dropWhile]

/-! ## Supporting lemmas: label cleaning -/

lemma mem_of_mem_takeWhile {α : Type} {p : α → Bool} {l : List α} {a : α}
    (h : a ∈ l.takeWhile p) : a ∈ l := by
  induction l with
  | nil => simp at h
  | cons b t ih =>
    by_cases hb : p b = true
    · rw [List.takeWhile_cons_of_pos hb] at h
      rcases List.mem_cons.mp h with rfl | h
      · exact List.mem_cons_self _ _
      · exact List.mem_cons_of_mem _ (ih h)
    · rw [List.takeWhile_cons_of_neg hb] at h
      simp at h

lemma process_words_good (ws : List (List Char)) (h : ∀ w ∈ ws, goodWord w) :
    ∀ w ∈ process_words ws, goodWord w := by
  cases ws with
  | nil => intro w hw; simp [process_words] at hw
  | cons w0 rest =>
    intro w hw
    rcases List.mem_cons.mp hw with rfl | hw
    · exact h w (by simp)
    · exact h w (List.mem_cons_of_mem _ (mem_of_mem_takeWhile hw))

lemma process_words_idem (ws : List (List Char)) :
    process_words (process_words ws) = process_words ws := by
  cases ws with
  | nil => rfl
  | cons w0 rest =>
    show w0 :: (rest.takeWhile _).takeWhile _ = w0 :: rest.takeWhile _
    rw [List.takeWhile_idem]

lemma process_string_idem (s : String) :
    process_string (process_string s) = process_string s := by
  have hgood : ∀ w ∈ process_words (pySplit s.toList), goodWord w :=
    process_words_good _ (pySplit_good s.toList)
  have htl : (process_string s).toList =
      pyStrip (joinSpace (process_words (pySplit s.toList))) := rfl
  show String.mk (pyStrip (joinSpace (process_words (pySplit (process_string s).toList)))) = _
  rw [htl, split_strip, resplit _ hgood, process_words_idem]
  rfl

/-! ## Supporting lemmas: pressure classifier -/

/-- Closed characterization of the severity ordinal returned by
`pressure_to_category`. -/
lemma pressure_sev_eq (p : ℚ) : (pressure_to_category p).2 =
    if 990 ≤ p then 0 else if 980 ≤ p then 1 else if 965 ≤ p then 2
    else if 945 ≤ p then 3 else if 920 ≤ p then 4 else if 0 ≤ p then 5 else -999 := by
  simp only [pressure_to_category, cp_categories, cpMatches, List.find?]
  by_cases h1 : 990 ≤ p
  · simp [h1]
  · by_cases h2 : 980 ≤ p
    · simp [h1, h2, not_le.mp h1]
    · by_cases h3 : 965 ≤ p
      · simp [h1, h2, h3, not_le.mp h2]
      · by_cases h4 : 945 ≤ p
        · simp [h1, h2, h3, h4, not_le.mp h3]
        · by_cases h5 : 920 ≤ p
          · simp [h1, h2, h3, h4, h5, not_le.mp h4]
          · by_cases h6 : 0 ≤ p
            · simp [h1, h2, h3, h4, h5, h6, not_le.mp h5]
            · simp [h1, h2, h3, h4, h5, h6]

/-! ## Supporting lemmas: sorting and buffering -/

lemma insertRow_length (r : TrackRow) (l : List TrackRow) :
    (insertRow r l).length = l.length + 1 := by
  induction l with
  | nil => rfl
  | cons a t ih =>
    by_cases h : r.forecastHour ≤ a.forecastHour
    · simp [insertRow, h]
    · simp only [insertRow, if_neg h, List.length_cons, ih]

lemma insertRow_countP (p : TrackRow → Bool) (r : TrackRow) (l : List TrackRow) :
    (insertRow r l).countP p = l.countP p + (if p r then 1 else 0) := by
  induction l with
  | nil => simp [insertRow, List.countP_cons]
  | cons a t ih =>
    by_cases h : r.forecastHour ≤ a.forecastHour
    · simp only [insertRow, if_pos h, List.countP_cons]
    · simp only [insertRow, if_neg h, List.countP_cons, ih]
      omega

lemma mem_insertRow {x r : TrackRow} : ∀ {l : List TrackRow},
    x ∈ insertRow r l ↔ x = r ∨ x ∈ l := by
  intro l
  induction l with
  | nil => simp [insertRow]
  | cons a t ih =>
    by_cases h : r.forecastHour ≤ a.forecastHour
    · simp [insertRow, h]
    · simp only [insertRow, if_neg h, List.mem_cons, ih]
      tauto

lemma sortRows_countP (p : TrackRow → Bool) (rows : List TrackRow) :
    (sortRows rows).countP p = rows.countP p := by
  induction rows with
  | nil => rfl
  | cons a t ih =>
    show (insertRow a (sortRows t)).countP p = _
    rw [insertRow_countP, ih, List.countP_cons]

lemma mem_sortRows {x : TrackRow} {rows : List TrackRow} :
    x ∈ sortRows rows ↔ x ∈ rows := by
  induction rows with
  | nil => simp [sortRows]
  | cons a t ih =>
    show x ∈ insertRow a (sortRows t) ↔ _
    rw [mem_insertRow, ih, List.mem_cons]

lemma length_filterMap_eq_countP {α β : Type} (f : α → Option β) (l : List α) :
    (l.filterMap f).length = l.countP (fun a => (f a).isSome) := by
  induction l with
  | nil => rfl
  | cons a t ih =>
    cases hf : f a <;>
      simp [List.filterMap_cons, hf, List.countP_cons, ih]

lemma buffersOf_length (rows : List TrackRow) :
    (buffersOf rows).length = usableCount rows := by
  rw [buffersOf, length_filterMap_eq_countP]
  simp only [bufferOf, Option.isSome_map']
  rw [sortRows_countP, usableCount]

/-- Reduction of the cone builder once the authoritative filter has
produced a row list. -/
lemma create_cone_found {track rows : List TrackRow}
    (h : filter_adeck_gdf_for_official_model track = OfclFilterResult.found rows) :
    create_uncertainty_cone track =
      (if (buffersOf rows).isEmpty then Except.ok Cone.emptyGDF
       else Except.ok (Cone.gdf ((buffersOf rows).zip (buffersOf rows).tail))) := by
  simp only [create_uncertainty_cone, h]

/-! ## Supporting lemmas: cone geometry -/

lemma diskSet_nonempty (d : Disk) : (diskSet d).Nonempty :=
  ⟨diskCenter d, Metric.mem_closedBall_self (by positivity)⟩

lemma subset_bridge_fst (p : Disk × Disk) : diskSet p.1 ⊆ bridgeSet p :=
  (subset_convexHull ℝ _).trans
    ((Set.subset_union_left).trans (subset_convexHull ℝ _))

lemma subset_bridge_snd (p : Disk × Disk) : diskSet p.2 ⊆ bridgeSet p :=
  (subset_convexHull ℝ _).trans
    ((Set.subset_union_right).trans (subset_convexHull ℝ _))

lemma bridge_pathConnected (p : Disk × Disk) : IsPathConnected (bridgeSet p) :=
  (convex_convexHull ℝ _).isPathConnected
    ((diskSet_nonempty p.1).mono (subset_bridge_fst p))

lemma segsSet_nil : segsSet [] = ∅ := by simp [segsSet]

lemma segsSet_cons (p : Disk × Disk) (ps : List (Disk × Disk)) :
    segsSet (p :: ps) = bridgeSet p ∪ segsSet ps := by
  simp [segsSet, List.mem_cons, Set.iUnion_or, Set.iUnion_union_distrib]

/-- The union of the bridging segments of a chain of at least two disks
is path-connected and contains every disk of the chain. -/
lemma chain_main (t : List Disk) : ∀ a : Disk, t ≠ [] →
    IsPathConnected (segsSet ((a :: t).zip t)) ∧
      ∀ d ∈ a :: t, diskSet d ⊆ segsSet ((a :: t).zip t) := by
  induction t with
  | nil => intro a h; exact absurd rfl h
  | cons b t' ih =>
    intro a _
    have hseg : (a :: b :: t').zip (b :: t') = (a, b) :: (b :: t').zip t' := rfl
    cases t' with
    | nil =>
      rw [hseg]
      have hset : segsSet [(a, b)] = bridgeSet (a, b) ∪ segsSet [] := segsSet_cons _ _
      constructor
      · rw [show ([b] : List Disk).zip [] = [] from rfl, hset, segsSet_nil, Set.union_empty]
        exact bridge_pathConnected (a, b)
      · intro d hd
        rw [show ([b] : List Disk).zip [] = [] from rfl, hset, segsSet_nil, Set.union_empty]
        rcases List.mem_cons.mp hd with rfl | hd
        · exact subset_bridge_fst (d, b)
        · rcases List.mem_cons.mp hd with rfl | hd
          · exact subset_bridge_snd (a, d)
          · simp at hd
    | cons c t'' =>
      obtain ⟨ihconn, ihsub⟩ := ih b (by simp)
      rw [hseg, segsSet_cons]
      have hinter : (bridgeSet (a, b) ∩ segsSet ((b :: c :: t'').zip (c :: t''))).Nonempty := by
        obtain ⟨z, hz⟩ := diskSet_nonempty b
        exact ⟨z, subset_bridge_snd (a, b) hz, ihsub b (by simp) hz⟩
      constructor
      · exact (bridge_pathConnected (a, b)).union ihconn hinter
      · intro d hd
        rcases List.mem_cons.mp hd with rfl | hd
        · exact (subset_bridge_fst (d, b)).trans Set.subset_union_left
        · exact (ihsub d hd).trans Set.subset_union_right

lemma vol_disk (d : Disk) :
    MeasureTheory.volume (diskSet d) = ENNReal.ofReal ((d.r : ℝ)) ^ 2 * NNReal.pi := by
  rw [diskSet, Complex.volume_closedBall]

/-! ## Supporting lemmas: coordinate parser -/

lemma digit_not_space {c : Char} (h : c.isDigit = true) : pyIsSpace c = false := by
  by_contra hsp
  rw [Bool.not_eq_false] at hsp
  simp only [pyIsSpace, Bool.or_eq_true, beq_iff_eq] at hsp
  rcases hsp with ((((rfl | rfl) | rfl) | rfl) | rfl) | rfl <;> exact absurd h (by decide)

lemma not_space_of_digits {l : List Char} (h : l.all Char.isDigit = true) :
    ∀ c ∈ l, pyIsSpace c = false := fun c hc =>
  digit_not_space (List.all_eq_true.mp h c hc)

lemma pyStrip_eq_self {l : List Char} (h : ∀ c ∈ l, pyIsSpace c = false) :
    pyStrip l = l := by
  have h1 : l.dropWhile pyIsSpace = l := by
    cases l with
    | nil => rfl
    | cons c cs => exact List.dropWhile_cons_of_neg (by simp [h c (by simp)])
  have h2 : l.reverse.dropWhile pyIsSpace = l.reverse := by
    cases hr : l.reverse with
    | nil => rfl
    | cons c cs =>
      refine List.dropWhile_cons_of_neg ?_
      have hc : c ∈ l := by
        rw [← List.mem_reverse, hr]
        simp
      simp [h c hc]
  rw [pyStrip, h1, h2, List.reverse_reverse]

lemma digit_ne_dot {c : Char} (h : c.isDigit = true) : (c != '.') = true := by
  by_contra hc
  rw [Bool.not_eq_true, bne_eq_false_iff_eq] at hc
  subst hc
  exact absurd h (by decide)

lemma pyFloatMag_digits {l : List Char} (hne : l ≠ []) (hdig : l.all Char.isDigit = true) :
    pyFloatMag l = some ((digitsToNat l : ℚ)) := by
  have hdrop : l.dropWhile (fun c => c != '.') = [] :=
    List.dropWhile_eq_nil_iff.mpr (fun c hc => digit_ne_dot (List.all_eq_true.mp hdig c hc))
  have hie : l.isEmpty = false := by
    cases l with
    | nil => exact absurd rfl hne
    | cons c cs => rfl
  have hid : isDigits l = true := by
    rw [isDigits, hie, hdig]
    rfl
  simp only [pyFloatMag, hdrop, hid, if_true]

lemma pyFloat?_digits {l : List Char} (hne : l ≠ []) (hdig : l.all Char.isDigit = true) :
    pyFloat? (String.mk l) = some ((digitsToNat l : ℚ)) := by
  have hst : pyStrip (String.mk l).toList = l := pyStrip_eq_self (not_space_of_digits hdig)
  rw [pyFloat?, hst]
  cases l with
  | nil => exact absurd rfl hne
  | cons c cs =>
    have hc : c.isDigit = true := List.all_eq_true.mp hdig c (by simp)
    have hplus : ¬ (c = '+') := by
      rintro rfl
      exact absurd hc (by decide)
    have hminus : ¬ (c = '-') := by
      rintro rfl
      exact absurd hc (by decide)
    rw [pyFloatSigned, if_neg hplus, if_neg hminus]
    exact pyFloatMag_digits hne hdig

lemma nsew_not_space {d : Char} (hd : d ∈ nsewChars) : pyIsSpace d = false := by
  simp only [nsewChars, List.mem_cons, List.not_mem_nil, or_false] at hd
  rcases hd with rfl | rfl | rfl | rfl <;> decide

lemma digit_not_nsew {c : Char} (h : c.isDigit = true) : ¬ (c ∈ nsewChars) := by
  intro hm
  simp only [nsewChars, List.mem_cons, List.not_mem_nil, or_false] at hm
  rcases hm with rfl | rfl | rfl | rfl <;> exact absurd h (by decide)

lemma parseCore_dir {l : List Char} (d : Char) (hd : d ∈ nsewChars)
    (hne : l ≠ []) (hdig : l.all Char.isDigit = true) :
    parseCore (l ++ [d]) =
      (if d = 'S' ∨ d = 'W' then some (-((digitsToNat l : ℚ) / 10))
       else some ((digitsToNat l : ℚ) / 10)) := by
  simp only [parseCore, List.getLast?_concat, List.dropLast_concat, if_pos hd,
    pyFloat?_digits hne hdig]

lemma parseCore_digits {l : List Char} (hne : l ≠ []) (hdig : l.all Char.isDigit = true) :
    parseCore l = some ((digitsToNat l : ℚ) / 10) := by
  have hlast := List.getLast?_eq_getLast l hne
  have hmem : l.getLast hne ∈ l := List.getLast_mem hne
  have hd : (l.getLast hne).isDigit = true := List.all_eq_true.mp hdig _ hmem
  simp only [parseCore, hlast, if_neg (digit_not_nsew hd), pyFloat?_digits hne hdig,
    Option.map_some']

/-! ## Supporting lemmas: storm name inference -/

lemma bumpCount_keys {d : List (String × Nat)} {k : String}
    (h : d.any (fun p => p.1 == k) = true) :
    (bumpCount d k).map Prod.fst = d.map Prod.fst := by
  rw [bumpCount, if_pos h, List.map_map]
  apply List.map_congr_left
  intro p _
  show (if p.1 == k then (p.1, p.2 + 1) else p).1 = p.1
  split <;> rfl

lemma filter_map_fst {β : Type} (q : String → Bool) (d : List (String × β)) :
    (d.filter (fun p => q p.1)).map Prod.fst = (d.map Prod.fst).filter q := by
  induction d with
  | nil => rfl
  | cons a t ih =>
    by_cases h : q a.1 = true <;> simp [List.filter_cons, h, ih]

lemma filteredCounts_keys (d : List (String × Nat)) :
    (filteredCounts d).map Prod.fst =
      (((d.map Prod.fst).filter (fun k => !(basin_codes.contains k))).filter
          (fun k => !(k.toList.any Char.isDigit))).filter
        (fun k => !(number_words_set.contains k)) := by
  rw [filteredCounts, filter_map_fst (fun k => !(number_words_set.contains k)),
    filter_map_fst (fun k => !(k.toList.any Char.isDigit)),
    filter_map_fst (fun k => !(basin_codes.contains k))]

/-- The inferred storm name depends only on the ordered key list of the
candidate dict, never on the counts. -/
lemma extract_name_of_keys_eq {d₁ d₂ : List (String × Nat)}
    (h : d₁.map Prod.fst = d₂.map Prod.fst) :
    pyTitle (chooseStormName ((filteredCounts d₁).map Prod.fst)) =
      pyTitle (chooseStormName ((filteredCounts d₂).map Prod.fst)) := by
  rw [filteredCounts_keys, filteredCounts_keys, h]

/-! ## Claim theorems -/

/-- C1.  The claim asserts the wind scale tiles the half-line with
half-open bins, in particular [34,64) → Tropical Storm.  The code agrees
at the boundary 34 but leaves the gaps [63,64), [82,83), [95,96),
[112,113) and [136,137) unclassified: at 63 knots it falls through to the
Unknown sentinel (-999) reserved for values outside all bounds.  This
theorem evaluates the classifier at the matching boundary 34, at the
failing inputs 63 and 136, and at 137. -/
theorem claim_C1_wind_boundary_gap :
    wind_speed_to_category 34 = ("Tropical Storm", 0)
    ∧ wind_speed_to_category 63 = ("Unknown", -999)
    ∧ wind_speed_to_category 136 = ("Unknown", -999)
    ∧ wind_speed_to_category 137 = ("Category 5", 5) := by
  decide

/-- C3.  The claim asserts that a track with no record from any preferred
forecast source makes the Cone Builder return an empty cone rather than
fail hard.  The source prints "Returning empty cone" and substitutes a
fresh column-less `GeoDataFrame()`, but then still calls
`sort_values(by='ForecastHour')` on it, which raises `KeyError` — a hard
failure in place of the documented empty cone. -/
theorem claim_C3_empty_track_keyerror :
    filter_adeck_gdf_for_official_model unofficialTrack = OfclFilterResult.freshEmpty
    ∧ create_uncertainty_cone unofficialTrack = Except.error (PyError.keyError "ForecastHour")
    ∧ create_uncertainty_cone [] = Except.error (PyError.keyError "ForecastHour") := by
  decide

/-- C5 counterexample.  The claim maps "Miami Office 12B Annex" to
"Miami"; the code keeps every word before the first digit-bearing token,
so "Office" survives. -/
theorem claim_C5_counterexample :
    process_string "Miami Office 12B Annex" ≠ "Miami" := by
  decide

/-- C5 (amended).  The label "Miami Office 12B Annex" cleans to
"Miami Office": the first word is kept, the following digit-free word
"Office" is kept too, the digit-bearing token "12B" stops processing,
and "Annex" is dropped. -/
theorem claim_C5_miami_label :
    process_string "Miami Office 12B Annex" = "Miami Office"
    ∧ clean_strings ["Miami Office 12B Annex"] = ["Miami Office"] := by
  decide

/-- C6 counterexample.  The claim asserts severity is monotonic
non-increasing in pressure for all pressures; at the negative pressure -1
the code returns the -999 sentinel, which is smaller than the severity 0
returned at pressure 990, so severity increases from p = -1 to p = 990. -/
theorem claim_C6_counterexample :
    ((-1 : ℚ) ≤ 990) ∧ (pressure_to_category (-1)).2 < (pressure_to_category 990).2 := by
  exact ⟨by norm_num, by decide⟩

/-- C6 (amended).  On nonnegative pressures — every physical millibar
value — the severity ordinal of `pressure_to_category` is monotonic
non-increasing as pressure increases. -/
theorem claim_C6_pressure_monotone (p₁ p₂ : ℚ) (h0 : 0 ≤ p₁) (h : p₁ ≤ p₂) :
    (pressure_to_category p₂).2 ≤ (pressure_to_category p₁).2 := by
  rw [pressure_sev_eq, pressure_sev_eq]
  split_ifs <;> first | omega | linarith

theorem claim_C6_pressure_monotone_witness :
    (pressure_to_category 1000).2 ≤ (pressure_to_category 0).2 :=
  claim_C6_pressure_monotone 0 1000 (by norm_num) (by norm_num)

/-- C8.  Every basin and horizon present in the radius table yields a
positive nautical-mile radius; a horizon outside the fixed set
{12, 24, 36, 48, 60, 72, 96, 120}, or a basin outside the table, yields
no radius at all rather than a default. -/
theorem claim_C8_radius_table :
    (∀ b ∈ radius_lookup.map Prod.fst, ∀ h ∈ horizonSet,
      ∃ r, get_radius b h = some r ∧ 0 < r)
    ∧ (∀ (b : String) (h : Int), h ∉ horizonSet → get_radius b h = none)
    ∧ (∀ b : String, b ∉ radius_lookup.map Prod.fst → ∀ h : Int, get_radius b h = none) := by
  refine ⟨by decide, ?_, ?_⟩
  · intro b h hh
    unfold get_radius
    cases hfind : radius_lookup.lookup b with
    | none => rfl
    | some row =>
      have hmem := lookup_mem hfind
      have hkeys : row.map Prod.fst = horizonSet := by
        simp only [radius_lookup, List.map_cons, List.map_nil, List.mem_cons,
          List.not_mem_nil, or_false] at hmem
        rcases hmem with h1 | h1 | h1 | h1 | h1 | h1 | h1 <;> subst h1 <;> decide
      exact lookup_none_of_not_mem (hkeys ▸ hh)
  · intro b hb h
    unfold get_radius
    rw [lookup_none_of_not_mem hb]

theorem claim_C8_radius_table_witness :
    (∃ r, get_radius "AL" 12 = some r ∧ 0 < r)
    ∧ get_radius "AL" 13 = none
    ∧ get_radius "XX" 24 = none :=
  ⟨claim_C8_radius_table.1 "AL" (by decide) 12 (by decide),
   claim_C8_radius_table.2.1 "AL" 13 (by decide),
   claim_C8_radius_table.2.2 "XX" (by decide) 24⟩

/-- C9.  Label cleaning is idempotent: cleaning an already-cleaned label
changes nothing, for every label. -/
theorem claim_C9_clean_idempotent (s : String) :
    process_string (process_string s) = process_string s :=
  process_string_idem s

/-- C2.  When the authoritative rows of a track yield at most one usable
buffer, `create_uncertainty_cone` succeeds and the resulting cone carries
no geometry: with zero buffers the fresh empty frame is returned, with
one buffer there is no bridging pair, so the returned frame holds the
empty union.  In particular this covers a track with exactly one
authoritative point. -/
theorem claim_C2_few_buffers_empty_cone :
    (∀ (track rows : List TrackRow),
        filter_adeck_gdf_for_official_model track = OfclFilterResult.found rows →
        usableCount rows ≤ 1 →
        ∃ c, create_uncertainty_cone track = Except.ok c ∧ coneSet c = ∅)
    ∧ (∀ (track rows : List TrackRow),
        filter_adeck_gdf_for_official_model track = OfclFilterResult.found rows →
        rows.length = 1 →
        ∃ c, create_uncertainty_cone track = Except.ok c ∧ coneSet c = ∅) := by
  have main : ∀ (track rows : List TrackRow),
      filter_adeck_gdf_for_official_model track = OfclFilterResult.found rows →
      usableCount rows ≤ 1 →
      ∃ c, create_uncertainty_cone track = Except.ok c ∧ coneSet c = ∅ := by
    intro track rows hf hu
    rw [create_cone_found hf]
    have hlen : (buffersOf rows).length ≤ 1 := by
      rw [buffersOf_length]
      exact hu
    match hb : buffersOf rows with
    | [] =>
      exact ⟨Cone.emptyGDF, rfl, rfl⟩
    | [d] =>
      refine ⟨Cone.gdf [], rfl, ?_⟩
      show segsSet [] = ∅
      exact segsSet_nil
    | d1 :: d2 :: t =>
      rw [hb] at hlen
      simp at hlen
  refine ⟨main, fun track rows hf h1 => main track rows hf ?_⟩
  calc usableCount rows ≤ rows.length := List.countP_le_length _
    _ = 1 := h1

theorem claim_C2_few_buffers_empty_cone_witness :
    ∃ c, create_uncertainty_cone singlePointTrack = Except.ok c ∧ coneSet c = ∅ :=
  claim_C2_few_buffers_empty_cone.2 singlePointTrack singlePointTrack (by decide) (by decide)

/-- C4.  For an authoritative track of at least two rows, all with
radius-table entries, the cone builder succeeds with a non-empty list of
bridging segments whose union is path-connected (a single, possibly
complex, polygon) and whose metric-frame area is at least the area of
every constituent buffer disk.  The second conjunct is the spec-§8
scenario: the basin-AL track with horizons 12 and 24 (radii 26 nm and
41 nm) yields a non-empty cone of area at least π·(26·1852)². -/
theorem claim_C4_cone_area :
    (∀ (track rows : List TrackRow),
        filter_adeck_gdf_for_official_model track = OfclFilterResult.found rows →
        2 ≤ rows.length →
        (∀ r ∈ rows, (get_radius r.basin r.forecastHour).isSome = true) →
        ∃ segs, create_uncertainty_cone track = Except.ok (Cone.gdf segs) ∧
          IsPathConnected (coneSet (Cone.gdf segs)) ∧
          ∀ d ∈ buffersOf rows,
            MeasureTheory.volume (diskSet d) ≤ MeasureTheory.volume (coneSet (Cone.gdf segs)))
    ∧ (∃ segs, create_uncertainty_cone alTrack12_24 = Except.ok (Cone.gdf segs) ∧
        coneSet (Cone.gdf segs) ≠ ∅ ∧
        ENNReal.ofReal ((26 * 1852 : ℝ)) ^ 2 * NNReal.pi ≤
          MeasureTheory.volume (coneSet (Cone.gdf segs))) := by
  have main : ∀ (track rows : List TrackRow),
      filter_adeck_gdf_for_official_model track = OfclFilterResult.found rows →
      2 ≤ rows.length →
      (∀ r ∈ rows, (get_radius r.basin r.forecastHour).isSome = true) →
      ∃ segs, create_uncertainty_cone track = Except.ok (Cone.gdf segs) ∧
        IsPathConnected (coneSet (Cone.gdf segs)) ∧
        ∀ d ∈ buffersOf rows,
          MeasureTheory.volume (diskSet d) ≤ MeasureTheory.volume (coneSet (Cone.gdf segs)) := by
    intro track rows hf h2 hall
    have hcount : usableCount rows = rows.length :=
      List.countP_eq_length.mpr (fun r hr => hall r hr)
    have hblen : 2 ≤ (buffersOf rows).length := by
      rw [buffersOf_length, hcount]
      exact h2
    match hb : buffersOf rows with
    | [] =>
      rw [hb] at hblen
      simp at hblen
    | [d] =>
      rw [hb] at hblen
      simp at hblen
    | a :: b :: t =>
      obtain ⟨hconn, hsub⟩ := chain_main (b :: t) a (by simp)
      refine ⟨(a :: b :: t).zip (b :: t), ?_, hconn, ?_⟩
      · rw [create_cone_found hf, hb]
        rfl
      · intro d hd
        exact MeasureTheory.measure_mono (hsub d hd)
  refine ⟨main, ?_⟩
  obtain ⟨segs, hcr, hconn, hvol⟩ :=
    main alTrack12_24 alTrack12_24 (by decide) (by decide) (by decide)
  have hcone : create_uncertainty_cone alTrack12_24 =
      Except.ok (Cone.gdf [(⟨0, 0, 48152⟩, ⟨100000, 0, 75932⟩)]) := by decide
  rw [hcone] at hcr
  have hsegs : segs = [(⟨0, 0, 48152⟩, ⟨100000, 0, 75932⟩)] := by
    injection hcr with h
    injection h with h
    exact h.symm
  subst hsegs
  have hd1 : (⟨0, 0, 48152⟩ : Disk) ∈ buffersOf alTrack12_24 := by decide
  refine ⟨_, hcone, ?_, ?_⟩
  · obtain ⟨z, hz⟩ := diskSet_nonempty (⟨0, 0, 48152⟩ : Disk)
    have hzin : z ∈ coneSet (Cone.gdf [(⟨0, 0, 48152⟩, ⟨100000, 0, 75932⟩)]) := by
      show z ∈ segsSet _
      rw [segsSet_cons, segsSet_nil, Set.union_empty]
      exact subset_bridge_fst _ hz
    exact Set.nonempty_iff_ne_empty.mp ⟨z, hzin⟩
  · calc ENNReal.ofReal ((26 * 1852 : ℝ)) ^ 2 * NNReal.pi
        = MeasureTheory.volume (diskSet (⟨0, 0, 48152⟩ : Disk)) := by
          rw [vol_disk]
          norm_num
      _ ≤ _ := hvol _ hd1

theorem claim_C4_cone_area_witness :
    ∃ segs, create_uncertainty_cone alTrack12_24 = Except.ok (Cone.gdf segs) ∧
      IsPathConnected (coneSet (Cone.gdf segs)) ∧
      ∀ d ∈ buffersOf alTrack12_24,
        MeasureTheory.volume (diskSet d) ≤ MeasureTheory.volume (coneSet (Cone.gdf segs)) :=
  claim_C4_cone_area.1 alTrack12_24 alTrack12_24 (by decide) (by decide) (by decide)

/-- C7 counterexample.  The claim says the majority candidate wins.  In a
file whose candidate tokens are ALPHA (twice) and BETA (once, last), the
code counts the occurrences but never consults the counts: the distinct
candidates ALPHA and BETA have distinct basin-code-stripped forms, so the
last candidate BETA wins over the majority candidate ALPHA. -/
theorem claim_C7_counterexample :
    candidateCounts [advLine "ALPHA", advLine "ALPHA", advLine "BETA"] =
      [("ALPHA", 2), ("BETA", 1)]
    ∧ extract_storm_info_name [advLine "ALPHA", advLine "ALPHA", advLine "BETA"] = "Beta" := by
  decide

/-- C7 (amended).  Storm-name inference aggregates candidate tokens with
their counts and filters out basin codes, digit-bearing tokens and number
words, but the counts are never used — no majority vote exists.  First
conjunct: appending a line whose cleaned candidate is already present
changes nothing (count-blindness).  The remaining conjuncts state the
actual selection on the filtered candidate key list: no candidates give
DISTURBANCE, the sole candidate INVEST gives INVEST, otherwise INVEST is
discarded; a single remaining candidate is chosen; among several, the
common basin-code-stripped form is chosen when it is unambiguous, else
the last candidate encountered. -/
theorem claim_C7_name_selection :
    (∀ (lines : List String) (line t : String),
        (pyWords line).get? 27 = some t →
        cleanToken t ∈ (candidateCounts lines).map Prod.fst →
        extract_storm_info_name (lines ++ [line]) = extract_storm_info_name lines)
    ∧ (∀ ks : List String, ks ≠ [] → ks ≠ ["INVEST"] →
        ∀ n : String, ks.erase "INVEST" = [n] → chooseStormName ks = n)
    ∧ (∀ (ks names : List String), ks ≠ [] → ks ≠ ["INVEST"] →
        ks.erase "INVEST" = names → names.length ≠ 1 →
        (∀ c : String,
            names.foldl (fun acc n => insertNew acc (cleanedName n)) [] = [c] →
            chooseStormName ks = c)
        ∧ ((names.foldl (fun acc n => insertNew acc (cleanedName n)) []).length ≠ 1 →
            chooseStormName ks = names.getLastD ""))
    ∧ chooseStormName [] = "DISTURBANCE"
    ∧ chooseStormName ["INVEST"] = "INVEST" := by
  refine ⟨?_, ?_, ?_, rfl, rfl⟩
  · intro lines line t hget hmem
    have hkeys : (candidateCounts (lines ++ [line])).map Prod.fst =
        (candidateCounts lines).map Prod.fst := by
      rw [candidateCounts, List.foldl_append]
      show (lineStep (candidateCounts lines) line).map Prod.fst = _
      have hget' : (pyWords line)[27]? = some t := by
        rw [← List.get?_eq_getElem?]
        exact hget
      by_cases ht : cleanToken t = ""
      · simp [lineStep, hget', ht]
      · have hany : (candidateCounts lines).any
            (fun p => p.1 == cleanToken t) = true := by
          rw [List.any_eq_true]
          obtain ⟨p, hp, hpe⟩ := List.mem_map.mp hmem
          exact ⟨p, hp, beq_iff_eq.mpr hpe⟩
        simp [lineStep, hget', ht, bumpCount_keys hany]
    exact extract_name_of_keys_eq hkeys
  · intro ks h1 h2 n h3
    simp [chooseStormName, h1, h2, h3]
  · intro ks names h1 h2 h3 hlen
    constructor
    · intro c hc
      simp [chooseStormName, h1, h2, h3, hlen, hc]
    · intro hcl
      simp [chooseStormName, h1, h2, h3, hlen, hcl]

theorem claim_C7_name_selection_witness :
    extract_storm_info_name ([advLine "GAMMA"] ++ [advLine "GAMMA"]) =
      extract_storm_info_name [advLine "GAMMA"]
    ∧ chooseStormName ["KATRINA"] = "KATRINA" :=
  ⟨claim_C7_name_selection.1 [advLine "GAMMA"] (advLine "GAMMA") "GAMMA"
      (by decide) (by decide),
   claim_C7_name_selection.2.1 ["KATRINA"] (by decide) (by decide) "KATRINA" (by decide)⟩

/-- C10.  The coordinate parser is total: non-strings and empty strings
give `none`, every string gives either `none` or a decimal-degree value,
a digit string with a direction suffix is parsed, divided by 10 and
negated exactly for the suffixes S and W, and a digit string with no
suffix is likewise accepted and divided by 10 rather than treated as
missing. -/
theorem claim_C10_parser_total :
    parse_lat_lon PyValue.nonStr = none
    ∧ parse_lat_lon (PyValue.str "") = none
    ∧ (∀ s : String, parse_lat_lon (PyValue.str s) = none ∨
        ∃ q, parse_lat_lon (PyValue.str s) = some q)
    ∧ (∀ l : List Char, l ≠ [] → l.all Char.isDigit = true →
        parse_lat_lon (PyValue.str (String.mk (l ++ ['N']))) = some ((digitsToNat l : ℚ) / 10)
        ∧ parse_lat_lon (PyValue.str (String.mk (l ++ ['E']))) = some ((digitsToNat l : ℚ) / 10)
        ∧ parse_lat_lon (PyValue.str (String.mk (l ++ ['S']))) =
            some (-((digitsToNat l : ℚ) / 10))
        ∧ parse_lat_lon (PyValue.str (String.mk (l ++ ['W']))) =
            some (-((digitsToNat l : ℚ) / 10))
        ∧ parse_lat_lon (PyValue.str (String.mk l)) = some ((digitsToNat l : ℚ) / 10)) := by
  refine ⟨rfl, by decide, ?_, ?_⟩
  · intro s
    cases h : parse_lat_lon (PyValue.str s) with
    | none => exact Or.inl rfl
    | some q => exact Or.inr ⟨q, rfl⟩
  · intro l hne hdig
    have hgood : ∀ c ∈ l, pyIsSpace c = false := not_space_of_digits hdig
    have hstrip : ∀ d : Char, pyIsSpace d = false → pyStrip (l ++ [d]) = l ++ [d] := by
      intro d hd
      apply pyStrip_eq_self
      intro c hc
      rcases List.mem_append.mp hc with hc | hc
      · exact hgood c hc
      · rw [List.mem_singleton] at hc
        subst hc
        exact hd
    refine ⟨?_, ?_, ?_, ?_, ?_⟩
    · show parseCore (pyStrip (String.mk (l ++ ['N'])).toList) = _
      rw [show (String.mk (l ++ ['N'])).toList = l ++ ['N'] from rfl,
        hstrip 'N' (by decide), parseCore_dir 'N' (by decide) hne hdig,
        if_neg (by decide : ¬('N' = 'S' ∨ 'N' = 'W'))]
    · show parseCore (pyStrip (String.mk (l ++ ['E'])).toList) = _
      rw [show (String.mk (l ++ ['E'])).toList = l ++ ['E'] from rfl,
        hstrip 'E' (by decide), parseCore_dir 'E' (by decide) hne hdig,
        if_neg (by decide : ¬('E' = 'S' ∨ 'E' = 'W'))]
    · show parseCore (pyStrip (String.mk (l ++ ['S'])).toList) = _
      rw [show (String.mk (l ++ ['S'])).toList = l ++ ['S'] from rfl,
        hstrip 'S' (by decide), parseCore_dir 'S' (by decide) hne hdig,
        if_pos (by decide : ('S' = 'S' ∨ 'S' = 'W'))]
    · show parseCore (pyStrip (String.mk (l ++ ['W'])).toList) = _
      rw [show (String.mk (l ++ ['W'])).toList = l ++ ['W'] from rfl,
        hstrip 'W' (by decide), parseCore_dir 'W' (by decide) hne hdig,
        if_pos (by decide : ('W' = 'S' ∨ 'W' = 'W'))]
    · show parseCore (pyStrip (String.mk l).toList) = _
      rw [show (String.mk l).toList = l from rfl, pyStrip_eq_self hgood,
        parseCore_digits hne hdig]

theorem claim_C10_parser_total_witness :
    parse_lat_lon (PyValue.str (String.mk (['2', '3', '5'] ++ ['N']))) =
      some ((digitsToNat ['2', '3', '5'] : ℚ) / 10)
    ∧ parse_lat_lon (PyValue.str (String.mk (['6', '7', '6'] ++ ['W']))) =
      some (-((digitsToNat ['6', '7', '6'] : ℚ) / 10))
    ∧ parse_lat_lon (PyValue.str (String.mk ['1', '2', '3'])) =
      some ((digitsToNat ['1', '2', '3'] : ℚ) / 10) :=
  ⟨(claim_C10_parser_total.2.2.2 ['2', '3', '5'] (by decide) (by decide)).1,
   (claim_C10_parser_total.2.2.2 ['6', '7', '6'] (by decide) (by decide)).2.2.2.1,
   (claim_C10_parser_total.2.2.2 ['1', '2', '3'] (by decide) (by decide)).2.2.2.2⟩

end StormMonitor
